import Mathlib

/-!
Verification of the DildonicaFrontend sensor-to-MIDI pipeline.

The Rust sources under src/ are embedded shallowly: machine integers become
Nat/Int with explicit bounds, f64 values become rationals, the fallible
constructors return Except, and the stateful MIDI translator is modelled by
explicit state passing.  A value of type Option ℚ models an f64 that may be
non-finite: `none` stands for NaN or an infinity, `some q` for the finite
value q.
-/

/-- Number of sensing zones (NUM_ZONES in src/main.rs). -/
def NUM_ZONES : Nat := 8

/-- Little-endian unsigned 32-bit value of four bytes. -/
def u32_le (b0 b1 b2 b3 : Nat) : Nat :=
  b0 + 256 * b1 + 65536 * b2 + 16777216 * b3

/-- Reinterpretation of an unsigned 32-bit value as a signed one (two's
complement), as done by Rust i32::from_le_bytes. -/
def i32_of_u32 (n : Nat) : Int :=
  if n < 2147483648 then (n : Int) else (n : Int) - 4294967296

/-- Little-endian byte decomposition of an unsigned 32-bit value, as done by
Rust u32::to_le_bytes. -/
def u32_to_le_bytes (n : Nat) : List Nat :=
  [n % 256, n / 256 % 256, n / 65536 % 256, n / 16777216 % 256]

/-- Rust float-to-u8 `as` cast: truncation toward zero, saturating to
[0, 255].  For nonnegative inputs truncation is the floor; negative inputs
saturate to 0, which Int.toNat already delivers. -/
def f64_as_u8 (x : ℚ) : Nat := min (Int.toNat ⌊x⌋) 255

/-- Saturating u8 cast of an integer-valued float (the result of f64::round). -/
def u8_of_int (i : Int) : Nat := min i.toNat 255

/-- Rust f64::round: round half away from zero. -/
def rust_round (x : ℚ) : Int := if 0 ≤ x then ⌊x + 1/2⌋ else -⌊-x + 1/2⌋

/-- Error type of the frontend (SampleError in src/main.rs).  The BLE
transport variant carries no algorithmic content and is omitted. -/
inductive SampleError where
  | DataTooShort
  | InvalidZone
  | InvalidZoneMap (msg : String)

deriving instance DecidableEq for SampleError

deriving instance DecidableEq for Except

/-- One device measurement (struct Sample in src/main.rs). -/
structure Sample where
  timestamp : Int
  zone : Nat
  value : Option Int

deriving instance DecidableEq for Sample

/-- Sample::from_bytes (src/main.rs): decode a raw packet.  Bytes are Nat
values below 256. -/
def Sample.from_bytes (data : List Nat) : Except SampleError Sample :=
  if data.length < 9 then .error .DataTooShort
  else
    let timestamp := i32_of_u32
      (u32_le (data.getD 0 0) (data.getD 1 0) (data.getD 2 0) (data.getD 3 0))
    let value := i32_of_u32
      (u32_le (data.getD 4 0) (data.getD 5 0) (data.getD 6 0) (data.getD 7 0))
    let zone := data.getD 8 0
    if NUM_ZONES ≤ zone then .error .InvalidZone
    else .ok { timestamp := timestamp, zone := zone,
               value := if value = 0 then none else some value }

lemma getD_lt_256 (data : List Nat) (hb : ∀ b ∈ data, b < 256) (i : Nat) :
    data.getD i 0 < 256 := by
  by_cases h : i < data.length
  · rw [List.getD_eq_getElem data 0 h]
    exact hb _ (List.getElem_mem h)
  · rw [List.getD_eq_default data 0 (Nat.le_of_not_lt h)]
    norm_num

lemma i32_of_u32_eq_zero_iff (n : Nat) (h : n < 4294967296) :
    i32_of_u32 n = 0 ↔ n = 0 := by
  unfold i32_of_u32
  split <;> omega

/-- C3: Sample::from_bytes fails with DataTooShort on every buffer shorter
than 9 bytes; on a buffer of length at least 9 it fails with InvalidZone
exactly when byte 8 is at least NUM_ZONES = 8, and otherwise succeeds with
the little-endian signed 32-bit timestamp of bytes 0-3, zone equal to byte
8, and an absent value exactly when bytes 4-7 are all zero. -/
theorem sample_from_bytes_spec (data : List Nat) (hb : ∀ b ∈ data, b < 256) :
    (data.length < 9 → Sample.from_bytes data = .error .DataTooShort) ∧
    (9 ≤ data.length →
      (8 ≤ data.getD 8 0 → Sample.from_bytes data = .error .InvalidZone) ∧
      (data.getD 8 0 < 8 →
        ∃ s, Sample.from_bytes data = .ok s ∧
          s.timestamp = i32_of_u32 (u32_le (data.getD 0 0) (data.getD 1 0)
            (data.getD 2 0) (data.getD 3 0)) ∧
          s.zone = data.getD 8 0 ∧
          (s.value = none ↔ data.getD 4 0 = 0 ∧ data.getD 5 0 = 0 ∧
            data.getD 6 0 = 0 ∧ data.getD 7 0 = 0))) := by
  constructor
  · intro h
    unfold Sample.from_bytes
    rw [if_pos h]
  · intro hlen
    have hnotshort : ¬ data.length < 9 := Nat.not_lt.mpr hlen
    constructor
    · intro hz
      unfold Sample.from_bytes
      rw [if_neg hnotshort, if_pos]
      exact hz
    · intro hz
      have hzn : ¬ NUM_ZONES ≤ data.getD 8 0 := by
        unfold NUM_ZONES; omega
      have h4 := getD_lt_256 data hb 4
      have h5 := getD_lt_256 data hb 5
      have h6 := getD_lt_256 data hb 6
      have h7 := getD_lt_256 data hb 7
      have hlt : u32_le (data.getD 4 0) (data.getD 5 0) (data.getD 6 0)
          (data.getD 7 0) < 4294967296 := by
        unfold u32_le; omega
      refine ⟨⟨i32_of_u32 (u32_le (data.getD 0 0) (data.getD 1 0)
          (data.getD 2 0) (data.getD 3 0)), data.getD 8 0,
          if i32_of_u32 (u32_le (data.getD 4 0) (data.getD 5 0) (data.getD 6 0)
            (data.getD 7 0)) = 0 then none
          else some (i32_of_u32 (u32_le (data.getD 4 0) (data.getD 5 0)
            (data.getD 6 0) (data.getD 7 0)))⟩, ?_, rfl, rfl, ?_⟩
      · unfold Sample.from_bytes
        rw [if_neg hnotshort, if_neg hzn]
      · constructor
        · intro hnone
          have h0 : i32_of_u32 (u32_le (data.getD 4 0) (data.getD 5 0)
              (data.getD 6 0) (data.getD 7 0)) = 0 := by
            by_contra hne
            rw [if_neg hne] at hnone
            exact Option.some_ne_none _ hnone
          rw [i32_of_u32_eq_zero_iff _ hlt] at h0
          unfold u32_le at h0
          omega
        · intro hzero
          have h0 : i32_of_u32 (u32_le (data.getD 4 0) (data.getD 5 0)
              (data.getD 6 0) (data.getD 7 0)) = 0 := by
            rw [i32_of_u32_eq_zero_iff _ hlt]
            unfold u32_le
            omega
          rw [if_pos h0]

/-- Witness for C3 at the packet [1,0,0,0, 0,0,0,0, 3]: decoding succeeds
with timestamp 1, zone 3 and no reading. -/
theorem sample_from_bytes_spec_witness :
    ∃ s, Sample.from_bytes [1, 0, 0, 0, 0, 0, 0, 0, 3] = .ok s ∧
      s.timestamp = 1 ∧ s.zone = 3 ∧ s.value = none := by
  have h := ((sample_from_bytes_spec [1, 0, 0, 0, 0, 0, 0, 0, 3]
    (by decide)).2 (by decide)).2 (by decide)
  obtain ⟨s, h1, h2, h3, h4⟩ := h
  refine ⟨s, h1, h2.trans (by decide), h3.trans (by decide), h4.mpr (by decide)⟩

/-- One zone's configurable sensing parameters (struct DildonicaZoneConfig in
src/main.rs).  The u8 and u32 fields are Nat values with explicit bounds. -/
structure DildonicaZoneConfig where
  enabled : Bool
  midi_control : Nat
  cycle_count_begin : Nat
  cycle_count_end : Nat
  comp_thresh_lo : Nat
  comp_thresh_hi : Nat

deriving instance DecidableEq for DildonicaZoneConfig

/-- DildonicaZoneConfig::SIZE: 20 bytes per record, 4-byte aligned. -/
def DildonicaZoneConfig.SIZE : Nat := 20

/-- DildonicaZoneConfig::to_bytes (src/main.rs): bytes 2 and 3 are padding,
written as zero. -/
def DildonicaZoneConfig.to_bytes (c : DildonicaZoneConfig) : List Nat :=
  [if c.enabled then 1 else 0, c.midi_control, 0, 0] ++
    u32_to_le_bytes c.cycle_count_begin ++
    u32_to_le_bytes c.cycle_count_end ++
    u32_to_le_bytes c.comp_thresh_lo ++
    u32_to_le_bytes c.comp_thresh_hi

/-- DildonicaZoneConfig::from_bytes (src/main.rs): bytes 2 and 3 (padding)
are skipped. -/
def DildonicaZoneConfig.from_bytes (bytes : List Nat) :
    Except SampleError DildonicaZoneConfig :=
  if bytes.length < DildonicaZoneConfig.SIZE then .error .DataTooShort
  else .ok
    { enabled := bytes.getD 0 0 ≠ 0,
      midi_control := bytes.getD 1 0,
      cycle_count_begin := u32_le (bytes.getD 4 0) (bytes.getD 5 0)
        (bytes.getD 6 0) (bytes.getD 7 0),
      cycle_count_end := u32_le (bytes.getD 8 0) (bytes.getD 9 0)
        (bytes.getD 10 0) (bytes.getD 11 0),
      comp_thresh_lo := u32_le (bytes.getD 12 0) (bytes.getD 13 0)
        (bytes.getD 14 0) (bytes.getD 15 0),
      comp_thresh_hi := u32_le (bytes.getD 16 0) (bytes.getD 17 0)
        (bytes.getD 18 0) (bytes.getD 19 0) }

/-- Pure core of read_zone_configs (src/main.rs): the transferred buffer must
be exactly SIZE * NUM_ZONES bytes long, then each 20-byte chunk is decoded. -/
def read_zone_configs (data : List Nat) :
    Except SampleError (List DildonicaZoneConfig) :=
  if data.length ≠ DildonicaZoneConfig.SIZE * NUM_ZONES then .error .DataTooShort
  else (List.range NUM_ZONES).mapM (fun i =>
    DildonicaZoneConfig.from_bytes
      ((data.drop (i * DildonicaZoneConfig.SIZE)).take DildonicaZoneConfig.SIZE))

lemma u32_le_to_le_bytes (n : Nat) (h : n < 4294967296) :
    u32_le (n % 256) (n / 256 % 256) (n / 65536 % 256) (n / 16777216 % 256)
      = n := by
  unfold u32_le
  omega


/-- C4: decoding a record's 20-byte encoding yields the record back (the
encoder writes the padding bytes 2 and 3 as zero); the decoder ignores the
padding bytes (changing them does not change the decoded record); and the
array decoder fails with DataTooShort whenever the buffer length is not
exactly 20 * NUM_ZONES. -/
theorem zone_config_codec_spec :
    (∀ c : DildonicaZoneConfig, c.midi_control < 256 →
      c.cycle_count_begin < 4294967296 → c.cycle_count_end < 4294967296 →
      c.comp_thresh_lo < 4294967296 → c.comp_thresh_hi < 4294967296 →
      DildonicaZoneConfig.from_bytes c.to_bytes = .ok c ∧
      c.to_bytes.getD 2 0 = 0 ∧ c.to_bytes.getD 3 0 = 0) ∧
    (∀ (b0 b1 p q p' q' : Nat) (rest : List Nat),
      DildonicaZoneConfig.from_bytes (b0 :: b1 :: p :: q :: rest) =
        DildonicaZoneConfig.from_bytes (b0 :: b1 :: p' :: q' :: rest)) ∧
    (∀ data : List Nat, data.length ≠ 20 * NUM_ZONES →
      read_zone_configs data = .error .DataTooShort) := by
  refine ⟨?_, ?_, ?_⟩
  · intro c h1 h2 h3 h4 h5
    obtain ⟨e, m, ccb, cce, ctl, cth⟩ := c
    refine ⟨?_, rfl, rfl⟩
    rw [show DildonicaZoneConfig.from_bytes
        (DildonicaZoneConfig.to_bytes ⟨e, m, ccb, cce, ctl, cth⟩) = Except.ok
        { enabled := decide ((if e then (1 : Nat) else 0) ≠ 0),
          midi_control := m,
          cycle_count_begin := u32_le (ccb % 256) (ccb / 256 % 256)
            (ccb / 65536 % 256) (ccb / 16777216 % 256),
          cycle_count_end := u32_le (cce % 256) (cce / 256 % 256)
            (cce / 65536 % 256) (cce / 16777216 % 256),
          comp_thresh_lo := u32_le (ctl % 256) (ctl / 256 % 256)
            (ctl / 65536 % 256) (ctl / 16777216 % 256),
          comp_thresh_hi := u32_le (cth % 256) (cth / 256 % 256)
            (cth / 65536 % 256) (cth / 16777216 % 256) } from rfl]
    have he : decide ((if e then (1 : Nat) else 0) ≠ 0) = e := by
      cases e <;> rfl
    rw [he, u32_le_to_le_bytes ccb h2, u32_le_to_le_bytes cce h3,
      u32_le_to_le_bytes ctl h4, u32_le_to_le_bytes cth h5]
  · intro b0 b1 p q p' q' rest
    rfl
  · intro data hlen
    unfold read_zone_configs
    rw [if_pos]
    exact hlen

/-- Witness for C4 at the default zone configuration record and a 159-byte
buffer. -/
theorem zone_config_codec_spec_witness :
    DildonicaZoneConfig.from_bytes
        (DildonicaZoneConfig.to_bytes ⟨true, 0, 1000, 10000, 100, 4000⟩) =
      .ok ⟨true, 0, 1000, 10000, 100, 4000⟩ ∧
    read_zone_configs (List.replicate 159 0) = .error .DataTooShort := by
  constructor
  · exact (zone_config_codec_spec.1 ⟨true, 0, 1000, 10000, 100, 4000⟩
      (by norm_num) (by norm_num) (by norm_num) (by norm_num) (by norm_num)).1
  · exact zone_config_codec_spec.2.2 (List.replicate 159 0)
      (by norm_num [NUM_ZONES])

/-- Per-zone exponential moving average (src/exponential_average.rs), with
f64 modelled as ℚ. -/
structure ExponentialAverage where
  alpha : ℚ
  current_average : Option ℚ

deriving instance DecidableEq for ExponentialAverage

/-- ExponentialAverage::new: the constructor asserts 0 ≤ alpha ≤ 1; the
assertion is carried as a hypothesis of the theorems that need it. -/
def ExponentialAverage.new (alpha : ℚ) : ExponentialAverage :=
  { alpha := alpha, current_average := none }

/-- ExponentialAverage::update (src/exponential_average.rs). -/
def ExponentialAverage.update (e : ExponentialAverage) (new_value : ℚ) :
    ExponentialAverage :=
  { e with current_average := some (match e.current_average with
      | none => new_value
      | some avg => avg * (1 - e.alpha) + new_value * e.alpha) }

/-- ExponentialAverage::get_average. -/
def ExponentialAverage.get_average (e : ExponentialAverage) : Option ℚ :=
  e.current_average

/-- Decoded, remapped and normalized measurement (struct ProcessedSample in
src/main.rs).  value_normalized is an f64 that may be non-finite, modelled
as Option ℚ: none stands for NaN or an infinity. -/
structure ProcessedSample where
  timestamp : Int
  zone : Nat
  value_raw : ℚ
  value_normalized : Option ℚ

deriving instance DecidableEq for ProcessedSample

/-- IEEE division of finite doubles, keeping track of finiteness: dividing a
nonzero finite value by zero gives an infinity, 0/0 gives NaN; both are
collapsed into none. -/
def fdiv (a b : ℚ) : Option ℚ := if b = 0 then none else some (a / b)

/-- The zone remap step of process_sample (src/main.rs):
zone_map.iter().position(|&x| x == sample.zone).unwrap_or(sample.zone). -/
def remap_zone (zone : Nat) (zone_map : List Nat) : Nat :=
  (zone_map.findIdx? (fun x => x == zone)).getD zone

/-- process_sample (src/main.rs): remap the zone, feed the reading into that
zone's running average, and normalize.  Returns the processed sample and the
updated per-zone average array. -/
def process_sample (sample : Sample) (zone_averages : List ExponentialAverage)
    (zone_map : List Nat) : ProcessedSample × List ExponentialAverage :=
  let zone := remap_zone sample.zone zone_map
  match sample.value with
  | some value =>
      let raw : ℚ := (value : ℚ)
      let updated := (zone_averages.getD zone ⟨0, none⟩).update raw
      let zone_averages' := zone_averages.set zone updated
      let average := updated.get_average.getD 0
      ({ timestamp := sample.timestamp, zone := zone, value_raw := raw,
         value_normalized := fdiv (raw - average) average }, zone_averages')
  | none =>
      ({ timestamp := sample.timestamp, zone := zone, value_raw := 0,
         value_normalized := some 0 }, zone_averages)

/-- C1, counterexample: the packet with timestamp 1000, value 500, zone 3
decodes as claimed, but under the permutation [5,6,7,2,1,3,4,0] physical
zone 3 is remapped to logical zone 5 (the position of the value 3), not to
logical zone 4 as the claim states. -/
theorem remap_zone3_counterexample :
    Sample.from_bytes [232, 3, 0, 0, 244, 1, 0, 0, 3] =
      .ok ⟨1000, 3, some 500⟩ ∧
    (process_sample ⟨1000, 3, some 500⟩
        (List.replicate 8 (ExponentialAverage.new (1/1000)))
        [5, 6, 7, 2, 1, 3, 4, 0]).1.zone = 5 ∧
    (process_sample ⟨1000, 3, some 500⟩
        (List.replicate 8 (ExponentialAverage.new (1/1000)))
        [5, 6, 7, 2, 1, 3, 4, 0]).1.zone ≠ 4 := by
  refine ⟨by decide, ?_, ?_⟩ <;> decide

/-- C1, amended: under the permutation [5,6,7,2,1,3,4,0] a sample with
physical zone 3 is assigned logical zone 5, the logical zone being the
position at which the physical zone value appears in the permutation array
(the value 3 sits at index 5). -/
theorem remap_zone3_amended (ts : Int) (v : Option Int)
    (avgs : List ExponentialAverage) :
    (process_sample ⟨ts, 3, v⟩ avgs [5, 6, 7, 2, 1, 3, 4, 0]).1.zone = 5 ∧
    ([5, 6, 7, 2, 1, 3, 4, 0] : List Nat).getD 5 0 = 3 := by
  constructor
  · cases v <;> rfl
  · rfl

/-- C2, counterexample: value_normalized is not always finite.  Feeding zone
0 the reading 1000 and then the reading -999000 (both valid nonzero i32
values) drives the just-updated baseline of an alpha = 1/1000 average to
exactly zero, and the division (raw - baseline) / baseline then produces a
non-finite value (modelled by none), not 0.0 as the claim requires. -/
theorem normalized_finite_counterexample :
    (process_sample ⟨1, 0, some (-999000)⟩
        (process_sample ⟨0, 0, some 1000⟩
          (List.replicate 8 (ExponentialAverage.new (1/1000)))
          [0, 1, 2, 3, 4, 5, 6, 7]).2
        [0, 1, 2, 3, 4, 5, 6, 7]).1.value_normalized = none ∧
    (process_sample ⟨1, 0, some (-999000)⟩
        (process_sample ⟨0, 0, some 1000⟩
          (List.replicate 8 (ExponentialAverage.new (1/1000)))
          [0, 1, 2, 3, 4, 5, 6, 7]).2
        [0, 1, 2, 3, 4, 5, 6, 7]).1.value_normalized ≠ some 0 := by
  have hstep :
      (process_sample ⟨1, 0, some (-999000)⟩
        (process_sample ⟨0, 0, some 1000⟩
          (List.replicate 8 (ExponentialAverage.new (1/1000)))
          [0, 1, 2, 3, 4, 5, 6, 7]).2
        [0, 1, 2, 3, 4, 5, 6, 7]).1.value_normalized =
      fdiv (((-999000 : Int) : ℚ) -
          (((1000 : Int) : ℚ) * (1 - 1/1000) + ((-999000 : Int) : ℚ) * (1/1000)))
        (((1000 : Int) : ℚ) * (1 - 1/1000) + ((-999000 : Int) : ℚ) * (1/1000)) :=
    rfl
  have hzero :
      ((1000 : Int) : ℚ) * (1 - 1/1000) + ((-999000 : Int) : ℚ) * (1/1000) = 0 := by
    push_cast
    norm_num
  rw [hstep, hzero]
  constructor
  · simp [fdiv]
  · simp [fdiv]

/-- C2, amended: when the sample has no reading, value_normalized is 0.0.
When it has a reading, the code first updates the zone's average and then
divides by the updated average with no guard: value_normalized equals
(raw - a) / a where a is the just-updated baseline, and when a is exactly
zero the division produces a non-finite value (none) instead of 0.0. -/
theorem normalized_value_amended (sample : Sample)
    (avgs : List ExponentialAverage) (zone_map : List Nat) :
    (sample.value = none →
      (process_sample sample avgs zone_map).1.value_normalized = some 0) ∧
    (∀ v : Int, sample.value = some v →
      ∀ a : ℚ,
        a = (((avgs.getD (remap_zone sample.zone zone_map) ⟨0, none⟩).update
          (v : ℚ)).get_average.getD 0) →
        ((a = 0 →
          (process_sample sample avgs zone_map).1.value_normalized = none) ∧
         (a ≠ 0 →
          (process_sample sample avgs zone_map).1.value_normalized =
            some (((v : ℚ) - a) / a)))) := by
  obtain ⟨ts, z, val⟩ := sample
  constructor
  · intro hnone
    simp only at hnone
    subst hnone
    rfl
  · intro v hv a ha
    simp only at hv
    subst hv
    constructor
    · intro ha0
      simp only [process_sample, fdiv]
      rw [← ha, if_pos ha0]
    · intro ha0
      simp only [process_sample, fdiv]
      rw [← ha, if_neg ha0]

/-- Witness for C2 (amended) at a sample with no reading and at a sample
whose reading gives a nonzero baseline. -/
theorem normalized_value_amended_witness :
    (process_sample ⟨0, 0, none⟩ [] []).1.value_normalized = some 0 ∧
    (process_sample ⟨0, 0, some 7⟩
        (List.replicate 8 (ExponentialAverage.new (1/1000)))
        [0, 1, 2, 3, 4, 5, 6, 7]).1.value_normalized =
      some ((((7 : Int) : ℚ) - ((7 : Int) : ℚ)) / ((7 : Int) : ℚ)) := by
  constructor
  · exact (normalized_value_amended ⟨0, 0, none⟩ [] []).1 rfl
  · exact (((normalized_value_amended ⟨0, 0, some 7⟩
      (List.replicate 8 (ExponentialAverage.new (1/1000)))
      [0, 1, 2, 3, 4, 5, 6, 7]).2 7 rfl ((7 : Int) : ℚ) rfl).2 (by norm_num))

lemma update_alpha (e : ExponentialAverage) (x : ℚ) :
    (e.update x).alpha = e.alpha := rfl

lemma foldl_update_alpha (xs : List ℚ) (e : ExponentialAverage) :
    (xs.foldl ExponentialAverage.update e).alpha = e.alpha := by
  induction xs generalizing e with
  | nil => rfl
  | cons y ys ih => rw [List.foldl_cons, ih, update_alpha]

lemma foldl_update_const (xs : List ℚ) (a : ℚ) (e : ExponentialAverage)
    (h : e.alpha = 0) (ha : e.current_average = some a) :
    (xs.foldl ExponentialAverage.update e).current_average = some a := by
  induction xs generalizing e with
  | nil => exact ha
  | cons y ys ih =>
    rw [List.foldl_cons]
    refine ih _ ?_ ?_
    · rw [update_alpha]
      exact h
    · obtain ⟨al, cur⟩ := e
      simp only at h ha
      subst h
      subst ha
      show some (a * (1 - 0) + y * 0) = some a
      simp only [Option.some.injEq]
      ring

/-- C9: for an ExponentialAverage built with 0 ≤ alpha ≤ 1, the first update
with x makes get_average return x; an update on an existing average a
replaces it by a * (1 - alpha) + x * alpha; with alpha = 1 the average after
any update sequence ending in x is x; and with alpha = 0 the average never
changes after the first value. -/
theorem exponential_average_spec :
    (∀ alpha x : ℚ, 0 ≤ alpha → alpha ≤ 1 →
      ((ExponentialAverage.new alpha).update x).get_average = some x) ∧
    (∀ alpha a x : ℚ,
      ((⟨alpha, some a⟩ : ExponentialAverage).update x).get_average =
        some (a * (1 - alpha) + x * alpha)) ∧
    (∀ (e : ExponentialAverage) (xs : List ℚ) (x : ℚ), e.alpha = 1 →
      ((xs ++ [x]).foldl ExponentialAverage.update e).get_average = some x) ∧
    (∀ (e : ExponentialAverage) (xs : List ℚ) (x : ℚ), e.alpha = 0 →
      e.current_average = none →
      ((x :: xs).foldl ExponentialAverage.update e).get_average = some x) := by
  refine ⟨?_, ?_, ?_, ?_⟩
  · intro alpha x h0 h1
    rfl
  · intro alpha a x
    rfl
  · intro e xs x h1
    have ha : (xs.foldl ExponentialAverage.update e).alpha = 1 :=
      (foldl_update_alpha xs e).trans h1
    have key : ∀ e' : ExponentialAverage, e'.alpha = 1 →
        (e'.update x).get_average = some x := by
      intro e' h
      obtain ⟨al, cur⟩ := e'
      simp only at h
      subst h
      cases cur with
      | none => rfl
      | some a =>
        show some (a * (1 - 1) + x * 1) = some x
        simp only [Option.some.injEq]
        ring
    rw [List.foldl_append, List.foldl_cons, List.foldl_nil]
    exact key _ ha
  · intro e xs x h0 hnone
    rw [List.foldl_cons]
    show (List.foldl ExponentialAverage.update (e.update x) xs).current_average
      = some x
    refine foldl_update_const xs x _ ?_ ?_
    · rw [update_alpha]
      exact h0
    · obtain ⟨al, cur⟩ := e
      simp only at hnone
      subst hnone
      rfl

/-- Witness for C9 at alpha = 1/2, first value 3, and short sequences for
the alpha = 1 and alpha = 0 cases. -/
theorem exponential_average_spec_witness :
    ((ExponentialAverage.new (1/2)).update 3).get_average = some 3 ∧
    (([5, 9] : List ℚ).foldl ExponentialAverage.update
      (ExponentialAverage.new 1)).get_average = some 9 ∧
    (((2 : ℚ) :: [4, 6]).foldl ExponentialAverage.update
      (ExponentialAverage.new 0)).get_average = some 2 := by
  refine ⟨?_, ?_, ?_⟩
  · exact exponential_average_spec.1 (1/2) 3 (by norm_num) (by norm_num)
  · exact exponential_average_spec.2.2.1 (ExponentialAverage.new 1) [5] 9 rfl
  · exact exponential_average_spec.2.2.2 (ExponentialAverage.new 0) [4, 6] 2
      rfl rfl

/-- MIDI output method (src/midi.rs). -/
inductive MidiOutputMethod where
  | ControlChange
  | Notes

deriving instance DecidableEq for MidiOutputMethod

/-- Musical scales (src/midi.rs). -/
inductive MusicalScale where
  | Chromatic
  | Major
  | Minor
  | Pentatonic
  | Blues
  | Dorian
  | Mixolydian
  | Lydian
  | Phrygian
  | Locrian
  | WholeTone
  | Diminished

deriving instance DecidableEq for MusicalScale

/-- MusicalScale::intervals (src/midi.rs). -/
def MusicalScale.intervals : MusicalScale → List Nat
  | .Chromatic => [0, 1, 2, 3, 4, 5, 6, 7, 8, 9, 10, 11]
  | .Major => [0, 2, 4, 5, 7, 9, 11]
  | .Minor => [0, 2, 3, 5, 7, 8, 10]
  | .Pentatonic => [0, 2, 4, 7, 9]
  | .Blues => [0, 3, 5, 6, 7, 10]
  | .Dorian => [0, 2, 3, 5, 7, 9, 10]
  | .Mixolydian => [0, 2, 4, 5, 7, 9, 10]
  | .Lydian => [0, 2, 4, 6, 7, 9, 11]
  | .Phrygian => [0, 1, 3, 5, 7, 8, 10]
  | .Locrian => [0, 1, 3, 5, 6, 8, 10]
  | .WholeTone => [0, 2, 4, 6, 8, 10]
  | .Diminished => [0, 2, 3, 5, 6, 8, 9, 11]

/-- MusicalScale::map_zone_to_note (src/midi.rs). -/
def MusicalScale.map_zone_to_note (s : MusicalScale) (base_note : Nat)
    (zone : Nat) : Nat :=
  let intervals := s.intervals
  let scale_len := intervals.length
  if scale_len = 0 then base_note
  else
    let octave := zone / scale_len
    let scale_index := zone % scale_len
    let note_offset := intervals.getD scale_index 0 + octave * 12
    min (base_note + note_offset) 127

/-- Control-Change mode parameters (struct ControlChangeConfig in
src/midi.rs). -/
structure ControlChangeConfig where
  base_control_number : Nat
  control_slope : ℚ

/-- Note mode parameters (struct NoteConfig in src/midi.rs). -/
structure NoteConfig where
  base_note : Nat
  threshold : ℚ
  velocity_slope : ℚ
  scale : MusicalScale

/-- Translation-mode parameters (struct MidiConfig in src/midi.rs). -/
structure MidiConfig where
  method : MidiOutputMethod
  control_change_config : ControlChangeConfig
  note_config : NoteConfig

/-- MidiProcessor state (src/midi.rs): which notes are currently on. -/
structure MidiProcessor where
  note_states : List Bool

deriving instance DecidableEq for MidiProcessor

/-- MidiProcessor::new: all eight notes off. -/
def MidiProcessor.new : MidiProcessor :=
  { note_states := List.replicate 8 false }

/-- MidiProcessor::send_control_change (src/midi.rs).  The MIDI output
connection is modelled by the returned list of 3-byte messages; u8
arithmetic wraps modulo 256. -/
def MidiProcessor.send_control_change (_ : MidiProcessor) (zone : Nat)
    (normalized_value : ℚ) (config : ControlChangeConfig) : List (List Nat) :=
  let midi_control_value := min (|normalized_value| * config.control_slope) 1
  let midi_control_value' := u8_of_int (rust_round (127 * midi_control_value))
  let midi_control_channel := (zone % 256 + config.base_control_number) % 256
  [[0xB0, midi_control_channel, midi_control_value']]

/-- MidiProcessor::send_note (src/midi.rs): the per-zone note state machine.
Returns the updated processor and the messages written to the output
connection. -/
def MidiProcessor.send_note (p : MidiProcessor) (zone : Nat)
    (normalized_value : ℚ) (config : NoteConfig) :
    MidiProcessor × List (List Nat) :=
  if 8 ≤ zone then (p, [])
  else
    let magnitude := |normalized_value|
    let note_number := config.scale.map_zone_to_note config.base_note zone
    if config.threshold < magnitude then
      let velocity := f64_as_u8 (min (magnitude * config.velocity_slope) 127)
      let velocity' := max velocity 1
      if p.note_states.getD zone false = false then
        ({ note_states := p.note_states.set zone true },
          [[0x90, note_number, velocity']])
      else
        (p, [[0xA0, note_number, velocity']])
    else if p.note_states.getD zone false = true then
      ({ note_states := p.note_states.set zone false },
        [[0x80, note_number, 0]])
    else
      (p, [])

/-- MidiProcessor::process_sample (src/midi.rs): dispatch on the configured
output method. -/
def MidiProcessor.process_sample (p : MidiProcessor) (zone : Nat)
    (normalized_value : ℚ) (config : MidiConfig) :
    MidiProcessor × List (List Nat) :=
  match config.method with
  | .ControlChange =>
      (p, p.send_control_change zone normalized_value
        config.control_change_config)
  | .Notes => p.send_note zone normalized_value config.note_config

/-- Run the Note-mode translator over a sequence of normalized values for
one zone, collecting the messages of each call. -/
def runNotes (p : MidiProcessor) (config : NoteConfig) (zone : Nat) :
    List ℚ → List (List (List Nat))
  | [] => []
  | v :: vs =>
    let r := p.send_note zone v config
    r.2 :: runNotes r.1 config zone vs

/-- Run the full translator over a sequence of (zone, normalized value)
calls, concatenating all emitted messages. -/
def runMidi (p : MidiProcessor) (config : MidiConfig) :
    List (Nat × ℚ) → MidiProcessor × List (List Nat)
  | [] => (p, [])
  | c :: cs =>
    let r := p.process_sample c.1 c.2 config
    let rr := runMidi r.1 config cs
    (rr.1, r.2 ++ rr.2)

lemma rust_round_le_127 (m : ℚ) (h0 : 0 ≤ m) (hm : m ≤ 1) :
    rust_round (127 * m) ≤ 127 := by
  unfold rust_round
  rw [if_pos (by positivity)]
  have hlt : (127 : ℚ) * m + 1/2 < ((128 : ℤ) : ℚ) := by
    push_cast
    nlinarith
  have := Int.floor_lt.mpr hlt
  omega

lemma rust_round_nonneg (x : ℚ) (h0 : 0 ≤ x) : 0 ≤ rust_round x := by
  unfold rust_round
  rw [if_pos h0]
  exact Int.floor_nonneg.mpr (by linarith)

lemma rust_round_nonpos (x : ℚ) (h : x < 0) : rust_round x ≤ 0 := by
  unfold rust_round
  rw [if_neg (not_le.mpr h)]
  have := Int.floor_nonneg.mpr (show (0 : ℚ) ≤ -x + 1/2 by linarith)
  omega

lemma rust_round_zero : rust_round 0 = 0 := by
  unfold rust_round
  rw [if_pos le_rfl, zero_add]
  apply Int.floor_eq_zero_iff.mpr
  constructor <;> norm_num

/-- The saturating u8 cast of the rounded scaled value agrees with the
round-after-clamp formula of the specification whenever m ≤ 1. -/
lemma u8_round_clamp (m : ℚ) (hm : m ≤ 1) :
    u8_of_int (rust_round (127 * m)) = (rust_round (127 * max 0 m)).toNat := by
  unfold u8_of_int
  rcases le_or_lt 0 m with h0 | h0
  · rw [max_eq_right h0]
    have h1 : rust_round (127 * m) ≤ 127 := rust_round_le_127 m h0 hm
    have h2 : 0 ≤ rust_round (127 * m) := rust_round_nonneg _ (by positivity)
    omega
  · rw [max_eq_left (le_of_lt h0), mul_zero, rust_round_zero]
    have h1 : rust_round (127 * m) ≤ 0 := rust_round_nonpos _ (by nlinarith)
    omega

/-- C7: every Control-Change-mode translation call emits exactly one
Control-Change message [0xB0, cc, v] with
v = round(127 * clamp(|normalized| * control_slope, 0, 1)) and
cc = base_control_number + zone as an 8-bit (mod 256) sum; at
normalized = -1/2 and control_slope = 20 the wire value is 127. -/
theorem control_change_spec (p : MidiProcessor) (zone : Nat) (n : ℚ)
    (cfg : ControlChangeConfig) :
    p.send_control_change zone n cfg =
      [[0xB0, (cfg.base_control_number + zone) % 256,
        (rust_round (127 * max 0 (min (|n| * cfg.control_slope) 1))).toNat]] ∧
    MidiProcessor.new.send_control_change 0 (-(1/2) : ℚ) ⟨41, 20⟩ =
      [[0xB0, 41, 127]] := by
  constructor
  · simp only [MidiProcessor.send_control_change]
    rw [u8_round_clamp _ (min_le_right _ _)]
    have hch : (zone % 256 + cfg.base_control_number) % 256 =
        (cfg.base_control_number + zone) % 256 := by omega
    rw [hch]
  · simp only [MidiProcessor.send_control_change]
    have habs : |(-(1/2) : ℚ)| = 1/2 := by
      rw [abs_neg, abs_of_nonneg]
      norm_num
    have h1 : min (|(-(1/2) : ℚ)| * 20) 1 = 1 := by
      rw [habs, min_eq_right]
      norm_num
    rw [h1]
    have h2 : rust_round (127 * (1 : ℚ)) = 127 := by
      unfold rust_round
      rw [if_pos (by norm_num)]
      apply Int.floor_eq_iff.mpr
      constructor <;> push_cast <;> norm_num
    rw [h2]
    rfl

lemma floor_min_intCast (x : ℚ) (c : ℤ) : ⌊min x (c : ℚ)⌋ = min ⌊x⌋ c := by
  rcases le_total x (c : ℚ) with h | h
  · rw [min_eq_left h, min_eq_left]
    have h2 := Int.floor_le_floor h
    rwa [Int.floor_intCast] at h2
  · rw [min_eq_right h, Int.floor_intCast, min_eq_right]
    exact Int.le_floor.mpr h

/-- The note velocity computed by the code (truncating cast after the min
with 127, then a floor clamp to 1) equals clamping the floor to [1, 127]. -/
lemma velocity_clamp (x : ℚ) :
    max (f64_as_u8 (min x 127)) 1 = (min (max ⌊x⌋ 1) 127).toNat := by
  unfold f64_as_u8
  rw [show (127 : ℚ) = ((127 : ℤ) : ℚ) by norm_num, floor_min_intCast]
  omega

/-- C6, counterexample: in Note mode with threshold 1/10, velocity slope 100
and normalized value 31/200 (i.e. 0.155), the emitted Note-On carries
velocity 15 (the code truncates 15.5), while the claimed formula
clamp(round(|n| * slope), 1, 127) gives round(15.5) = 16. -/
theorem note_velocity_counterexample :
    ((MidiProcessor.new).send_note 0 (31/200)
        ⟨60, 1/10, 100, MusicalScale.Chromatic⟩).2 = [[0x90, 60, 15]] ∧
    (min (max (rust_round (|(31/200 : ℚ)| * 100)) 1) 127).toNat = 16 ∧
    (16 : Nat) ≠ 15 := by
  refine ⟨?_, ?_, by norm_num⟩
  · have key : (MidiProcessor.new).send_note 0 (31/200)
        ⟨60, 1/10, 100, MusicalScale.Chromatic⟩ =
        ({ note_states := (List.replicate 8 false).set 0 true },
         [[0x90, 60, max (f64_as_u8 (min (|(31/200 : ℚ)| * 100) 127)) 1]]) := by
      simp only [MidiProcessor.send_note, MidiProcessor.new]
      rw [if_neg (by omega : ¬ (8 : Nat) ≤ 0)]
      rw [if_pos (show (1/10 : ℚ) < |(31/200 : ℚ)| by
        rw [abs_of_nonneg (by norm_num : (0 : ℚ) ≤ 31/200)]
        norm_num)]
      rw [show (List.replicate 8 false).getD 0 false = false from rfl]
      rw [if_pos rfl]
      rfl
    rw [key]
    show [[0x90, 60, max (f64_as_u8 (min (|(31/200 : ℚ)| * 100) 127)) 1]] =
      [[0x90, 60, 15]]
    have h1 : |(31/200 : ℚ)| * 100 = 31/2 := by
      rw [abs_of_nonneg (by norm_num : (0 : ℚ) ≤ 31/200)]
      norm_num
    rw [h1, min_eq_left (by norm_num : (31/2 : ℚ) ≤ 127)]
    unfold f64_as_u8
    rw [show ⌊(31/2 : ℚ)⌋ = 15 from by
      apply Int.floor_eq_iff.mpr
      constructor <;> push_cast <;> norm_num]
    rfl
  · have h1 : |(31/200 : ℚ)| * 100 = 31/2 := by
      rw [abs_of_nonneg (by norm_num : (0 : ℚ) ≤ 31/200)]
      norm_num
    rw [h1]
    rw [show rust_round (31/2 : ℚ) = 16 from by
      unfold rust_round
      rw [if_pos (by norm_num)]
      apply Int.floor_eq_iff.mpr
      constructor <;> push_cast <;> norm_num]
    rfl

/-- C6, amended: in Note mode, for every translation call with magnitude
above the threshold and zone below 8, the emitted Note-On (zone off) or
Key-Pressure (zone on) message carries velocity
clamp(floor(|normalized| * velocity_slope), 1, 127): the scaled magnitude is
truncated (Rust as-cast), not rounded. -/
theorem note_velocity_amended (p : MidiProcessor) (zone : Nat) (n : ℚ)
    (c : NoteConfig) (hz : zone < 8) (hm : c.threshold < |n|) :
    (p.send_note zone n c).2 =
      [[(if p.note_states.getD zone false = false then 0x90 else 0xA0),
        c.scale.map_zone_to_note c.base_note zone,
        (min (max ⌊|n| * c.velocity_slope⌋ 1) 127).toNat]] := by
  have h8 : ¬ 8 ≤ zone := by omega
  cases hst : p.note_states.getD zone false with
  | false =>
    simp only [MidiProcessor.send_note, if_neg h8, if_pos hm, hst]
    norm_num
    exact velocity_clamp _
  | true =>
    simp only [MidiProcessor.send_note, if_neg h8, if_pos hm, hst]
    norm_num
    exact velocity_clamp _

/-- Witness for C6 (amended) at zone 0, normalized value 1/5, threshold
1/10, velocity slope 100: a Note-On with velocity 20. -/
theorem note_velocity_amended_witness :
    ((MidiProcessor.new).send_note 0 (1/5)
        ⟨60, 1/10, 100, MusicalScale.Chromatic⟩).2 = [[0x90, 60, 20]] := by
  have h := note_velocity_amended MidiProcessor.new 0 (1/5)
    ⟨60, 1/10, 100, MusicalScale.Chromatic⟩ (by omega)
    (by rw [abs_of_nonneg (by norm_num : (0 : ℚ) ≤ 1/5)]; norm_num)
  rw [h]
  show [[0x90, (60 : Nat), (min (max ⌊|(1/5 : ℚ)| * 100⌋ 1) 127).toNat]] =
    [[0x90, 60, 20]]
  rw [show |(1/5 : ℚ)| = 1/5 from abs_of_nonneg (by norm_num)]
  rw [show ((1/5 : ℚ) * 100) = 20 by norm_num]
  rw [show ⌊(20 : ℚ)⌋ = 20 from by
    apply Int.floor_eq_iff.mpr
    constructor <;> push_cast <;> norm_num]
  decide

lemma getD_replicate_false (n i : Nat) :
    (List.replicate n false).getD i false = false := by
  induction n generalizing i with
  | zero => rfl
  | succ m ih =>
    cases i with
    | zero => rfl
    | succ j => exact ih j

lemma getD_set_self {A : Type} (l : List A) (i : Nat) (a d : A)
    (h : i < l.length) : (l.set i a).getD i d = a := by
  induction l generalizing i with
  | nil => simp at h
  | cons b t ih =>
    cases i with
    | zero => rfl
    | succ j =>
      refine ih j ?_
      simp only [List.length_cons] at h
      omega

/-- C5: in Note mode with threshold 1/10, starting from the all-off state,
the magnitude sequence [1/20, 1/5, 3/10, 1/20] for one zone produces exactly
the per-call message lists [nothing, Note-On, Key-Pressure, Note-Off], and
the Note-Off carries velocity 0. -/
theorem note_sequence_spec (c : NoteConfig) (zone : Nat)
    (hthr : c.threshold = 1/10) (hz : zone < 8) :
    runNotes MidiProcessor.new c zone [1/20, 1/5, 3/10, 1/20] =
      [[],
       [[0x90, c.scale.map_zone_to_note c.base_note zone,
         max (f64_as_u8 (min (|(1/5 : ℚ)| * c.velocity_slope) 127)) 1]],
       [[0xA0, c.scale.map_zone_to_note c.base_note zone,
         max (f64_as_u8 (min (|(3/10 : ℚ)| * c.velocity_slope) 127)) 1]],
       [[0x80, c.scale.map_zone_to_note c.base_note zone, 0]]] := by
  have hz8 : ¬ 8 ≤ zone := by omega
  have hgd0 : MidiProcessor.new.note_states.getD zone false = false :=
    getD_replicate_false 8 zone
  have hgd1 : ((MidiProcessor.new.note_states.set zone true).getD zone false)
      = true := by
    refine getD_set_self _ zone true false ?_
    show zone < (List.replicate 8 false).length
    simp
    omega
  have h1 : MidiProcessor.new.send_note zone (1/20) c =
      (MidiProcessor.new, []) := by
    simp only [MidiProcessor.send_note, if_neg hz8]
    rw [hthr, show |(1/20 : ℚ)| = 1/20 from abs_of_nonneg (by norm_num)]
    rw [if_neg (by norm_num : ¬ (1/10 : ℚ) < 1/20)]
    rw [hgd0, if_neg (by decide : ¬ (false = true))]
  have h2 : MidiProcessor.new.send_note zone (1/5) c =
      ({ note_states := MidiProcessor.new.note_states.set zone true },
       [[0x90, c.scale.map_zone_to_note c.base_note zone,
         max (f64_as_u8 (min (|(1/5 : ℚ)| * c.velocity_slope) 127)) 1]]) := by
    simp only [MidiProcessor.send_note, if_neg hz8]
    rw [hthr, if_pos (show (1/10 : ℚ) < |(1/5 : ℚ)| by
      rw [abs_of_nonneg (by norm_num : (0 : ℚ) ≤ 1/5)]
      norm_num)]
    rw [hgd0, if_pos rfl]
  have h3 : (MidiProcessor.mk
      (MidiProcessor.new.note_states.set zone true)).send_note zone (3/10) c =
      ({ note_states := MidiProcessor.new.note_states.set zone true },
       [[0xA0, c.scale.map_zone_to_note c.base_note zone,
         max (f64_as_u8 (min (|(3/10 : ℚ)| * c.velocity_slope) 127)) 1]]) := by
    simp only [MidiProcessor.send_note, if_neg hz8]
    rw [hthr, if_pos (show (1/10 : ℚ) < |(3/10 : ℚ)| by
      rw [abs_of_nonneg (by norm_num : (0 : ℚ) ≤ 3/10)]
      norm_num)]
    rw [hgd1, if_neg (by decide : ¬ (true = false))]
  have h4 : (MidiProcessor.mk
      (MidiProcessor.new.note_states.set zone true)).send_note zone (1/20) c =
      ({ note_states :=
          (MidiProcessor.new.note_states.set zone true).set zone false },
       [[0x80, c.scale.map_zone_to_note c.base_note zone, 0]]) := by
    simp only [MidiProcessor.send_note, if_neg hz8]
    rw [hthr, show |(1/20 : ℚ)| = 1/20 from abs_of_nonneg (by norm_num)]
    rw [if_neg (by norm_num : ¬ (1/10 : ℚ) < 1/20)]
    rw [hgd1, if_pos rfl]
  simp only [runNotes, h1, h2, h3, h4]

/-- Witness for C5 at zone 0, base note 60, velocity slope 100, chromatic
scale. -/
theorem note_sequence_spec_witness :
    runNotes MidiProcessor.new ⟨60, 1/10, 100, MusicalScale.Chromatic⟩ 0
        [1/20, 1/5, 3/10, 1/20] =
      [[], [[0x90, 60, 20]], [[0xA0, 60, 30]], [[0x80, 60, 0]]] := by
  have h := note_sequence_spec ⟨60, 1/10, 100, MusicalScale.Chromatic⟩ 0 rfl
    (by omega)
  rw [h]
  show ([[],
    [[0x90, (60 : Nat), max (f64_as_u8 (min (|(1/5 : ℚ)| * 100) 127)) 1]],
    [[0xA0, 60, max (f64_as_u8 (min (|(3/10 : ℚ)| * 100) 127)) 1]],
    [[0x80, 60, 0]]] : List (List (List Nat))) =
    [[], [[0x90, 60, 20]], [[0xA0, 60, 30]], [[0x80, 60, 0]]]
  rw [show |(1/5 : ℚ)| = 1/5 from abs_of_nonneg (by norm_num)]
  rw [show |(3/10 : ℚ)| = 3/10 from abs_of_nonneg (by norm_num)]
  rw [show ((1/5 : ℚ) * 100) = 20 by norm_num]
  rw [show ((3/10 : ℚ) * 100) = 30 by norm_num]
  rw [min_eq_left (by norm_num : (20 : ℚ) ≤ 127)]
  rw [min_eq_left (by norm_num : (30 : ℚ) ≤ 127)]
  unfold f64_as_u8
  rw [show ⌊(20 : ℚ)⌋ = 20 from by
    apply Int.floor_eq_iff.mpr
    constructor <;> push_cast <;> norm_num]
  rw [show ⌊(30 : ℚ)⌋ = 30 from by
    apply Int.floor_eq_iff.mpr
    constructor <;> push_cast <;> norm_num]
  decide

/-- C10: in Control-Change mode, process_sample leaves the note_states array
untouched for every zone and value, so a note turned on in Notes mode stays
marked as sounding across any number of Control-Change-mode calls, and every
message such a call emits is a Control-Change (status 0xB0) — never a
Note-Off (status 0x80). -/
theorem control_change_preserves_notes (p : MidiProcessor)
    (config : MidiConfig) (h : config.method = MidiOutputMethod.ControlChange)
    (calls : List (Nat × ℚ)) :
    (∀ zone n, (p.process_sample zone n config).1 = p) ∧
    (runMidi p config calls).1 = p ∧
    (∀ m ∈ (runMidi p config calls).2, ∃ cc v, m = [0xB0, cc, v]) ∧
    (∀ m ∈ (runMidi p config calls).2, m.headD 0 ≠ 0x80) := by
  obtain ⟨method, ccc, nc⟩ := config
  simp only at h
  subst h
  have main : ∀ (cs : List (Nat × ℚ)) (q : MidiProcessor),
      (runMidi q ⟨MidiOutputMethod.ControlChange, ccc, nc⟩ cs).1 = q ∧
      (∀ m ∈ (runMidi q ⟨MidiOutputMethod.ControlChange, ccc, nc⟩ cs).2,
        ∃ cc v, m = [0xB0, cc, v]) := by
    intro cs
    induction cs with
    | nil =>
      intro q
      exact ⟨rfl, by intro m hm; simp [runMidi] at hm⟩
    | cons c cs ih =>
      intro q
      constructor
      · show (runMidi q ⟨MidiOutputMethod.ControlChange, ccc, nc⟩ cs).1 = q
        exact (ih q).1
      · intro m hm
        have hm2 : m ∈ (q.send_control_change c.1 c.2 ccc) ++
            (runMidi q ⟨MidiOutputMethod.ControlChange, ccc, nc⟩ cs).2 := hm
        rcases List.mem_append.mp hm2 with h1 | h2
        · simp only [MidiProcessor.send_control_change, List.mem_singleton]
            at h1
          exact ⟨_, _, h1⟩
        · exact (ih q).2 m h2
  refine ⟨fun zone n => rfl, (main calls p).1, (main calls p).2, ?_⟩
  intro m hm
  obtain ⟨cc, v, hmv⟩ := (main calls p).2 m hm
  subst hmv
  simp

/-- Witness for C10: one Control-Change call on a fresh processor leaves the
note state array unchanged. -/
theorem control_change_preserves_notes_witness :
    (runMidi MidiProcessor.new
        ⟨MidiOutputMethod.ControlChange, ⟨41, 20⟩,
          ⟨60, 1/10, 100, MusicalScale.Chromatic⟩⟩
        [(0, 1/2)]).1 = MidiProcessor.new ∧
    (∀ m ∈ (runMidi MidiProcessor.new
        ⟨MidiOutputMethod.ControlChange, ⟨41, 20⟩,
          ⟨60, 1/10, 100, MusicalScale.Chromatic⟩⟩
        [(0, 1/2)]).2, m.headD 0 ≠ 0x80) := by
  have h := control_change_preserves_notes MidiProcessor.new
    ⟨MidiOutputMethod.ControlChange, ⟨41, 20⟩,
      ⟨60, 1/10, 100, MusicalScale.Chromatic⟩⟩ rfl [(0, 1/2)]
  exact ⟨h.2.1, h.2.2.2⟩

/-- Rust str::split(',') on the character list of the input: empty pieces
are kept, and the empty string yields one empty piece. -/
def splitComma : List Char → List (List Char)
  | [] => [[]]
  | c :: cs =>
    match splitComma cs with
    | [] => [[]]
    | g :: gs => if c = ',' then [] :: g :: gs else (c :: g) :: gs

/-- Rust str::trim: strip leading and trailing whitespace. -/
def trimChars (l : List Char) : List Char :=
  ((l.dropWhile Char.isWhitespace).reverse.dropWhile Char.isWhitespace).reverse

/-- Decimal value of a digit list. -/
def digitsVal (l : List Char) : Nat :=
  l.foldl (fun acc c => acc * 10 + (c.toNat - 48)) 0

/-- Parse a nonempty all-digit character list. -/
def parseDigits (l : List Char) : Option Nat :=
  if l.isEmpty then none
  else if l.all Char.isDigit then some (digitsVal l) else none

/-- Rust str::parse::<usize>: an optional leading plus sign followed by at
least one decimal digit. -/
def parseUsize : List Char → Option Nat
  | [] => none
  | c :: cs => if c = '+' then parseDigits cs else parseDigits (c :: cs)

/-- The element loop of parse_zone_map (src/main.rs): trim and parse each
piece, reject out-of-range and repeated zones via the seen-array, assign in
order. -/
def parse_zone_map_go : List (List Char) → List Bool → List Nat →
    Except SampleError (List Nat)
  | [], _, acc => .ok acc.reverse
  | p :: ps, used, acc =>
    match parseUsize (trimChars p) with
    | none => .error (.InvalidZoneMap "invalid zone number")
    | some zone =>
      if NUM_ZONES ≤ zone then .error (.InvalidZoneMap "zone out of range")
      else if used.getD zone false = true then
        .error (.InvalidZoneMap "zone used multiple times")
      else parse_zone_map_go ps (used.set zone true) (zone :: acc)

/-- parse_zone_map (src/main.rs): split on commas, require exactly NUM_ZONES
pieces, then run the element loop. -/
def parse_zone_map (map_str : String) : Except SampleError (List Nat) :=
  let parts := splitComma map_str.data
  if parts.length ≠ NUM_ZONES then
    .error (.InvalidZoneMap "wrong number of zones")
  else parse_zone_map_go parts (List.replicate NUM_ZONES false) []

lemma getD_set_of_ne {A : Type} (l : List A) (i j : Nat) (a d : A)
    (h : i ≠ j) : (l.set i a).getD j d = l.getD j d := by
  induction l generalizing i j with
  | nil => simp [List.set]
  | cons b t ih =>
    cases i with
    | zero =>
      cases j with
      | zero => omega
      | succ j' => simp [List.set]
    | succ i' =>
      cases j with
      | zero => simp [List.set]
      | succ j' =>
        simp only [List.set, List.getD_cons_succ]
        exact ih i' j' (by omega)

lemma go_error_shape (ps : List (List Char)) :
    ∀ (used : List Bool) (acc : List Nat) (e : SampleError),
      parse_zone_map_go ps used acc = .error e →
      ∃ msg, e = .InvalidZoneMap msg := by
  induction ps with
  | nil =>
    intro used acc e he
    simp [parse_zone_map_go] at he
  | cons p ps ih =>
    intro used acc e he
    cases hp : parseUsize (trimChars p) with
    | none =>
      simp only [parse_zone_map_go, hp] at he
      injection he with h
      exact ⟨_, h.symm⟩
    | some v =>
      simp only [parse_zone_map_go, hp] at he
      by_cases hv8 : NUM_ZONES ≤ v
      · rw [if_pos hv8] at he
        injection he with h
        exact ⟨_, h.symm⟩
      · rw [if_neg hv8] at he
        by_cases hu : used.getD v false = true
        · rw [if_pos hu] at he
          injection he with h
          exact ⟨_, h.symm⟩
        · rw [if_neg hu] at he
          exact ih _ _ _ he

lemma go_ok_iff (ps : List (List Char)) :
    ∀ (used : List Bool) (acc : List Nat), used.length = NUM_ZONES →
    ((∃ l, parse_zone_map_go ps used acc = .ok l) ↔
      ((∀ o ∈ ps.map (fun p => parseUsize (trimChars p)),
          ∃ v, o = some v ∧ v < NUM_ZONES) ∧
       (ps.map (fun p => parseUsize (trimChars p))).Nodup ∧
       (∀ v : Nat, (some v) ∈ ps.map (fun p => parseUsize (trimChars p)) →
          used.getD v false = false))) := by
  induction ps with
  | nil =>
    intro used acc hlen
    simp [parse_zone_map_go]
  | cons p ps ih =>
    intro used acc hlen
    cases hp : parseUsize (trimChars p) with
    | none =>
      apply iff_of_false
      · rintro ⟨l, hl⟩
        simp [parse_zone_map_go, hp] at hl
      · rintro ⟨hall, _, _⟩
        obtain ⟨w, hw, _⟩ := hall (parseUsize (trimChars p)) (by simp)
        rw [hp] at hw
        exact Option.noConfusion hw
    | some v =>
      by_cases hv8 : NUM_ZONES ≤ v
      · apply iff_of_false
        · rintro ⟨l, hl⟩
          simp [parse_zone_map_go, hp, if_pos hv8] at hl
        · rintro ⟨hall, _, _⟩
          obtain ⟨w, hw, hw8⟩ := hall (parseUsize (trimChars p)) (by simp)
          rw [hp] at hw
          injection hw with hvw
          omega
      · by_cases hu : used.getD v false = true
        · apply iff_of_false
          · rintro ⟨l, hl⟩
            simp only [parse_zone_map_go, hp] at hl
            rw [if_neg hv8, if_pos hu] at hl
            exact Except.noConfusion hl
          · rintro ⟨hall, hnd, hfresh⟩
            have h2 := hfresh v (by
              rw [List.map_cons, List.mem_cons]
              exact Or.inl hp.symm)
            rw [h2] at hu
            exact Bool.noConfusion hu
        · have hu' : used.getD v false = false := by
            cases hgd : used.getD v false
            · rfl
            · exact absurd hgd hu
          have hv8' : v < NUM_ZONES := Nat.lt_of_not_le hv8
          have hstep : parse_zone_map_go (p :: ps) used acc =
              parse_zone_map_go ps (used.set v true) (v :: acc) := by
            simp only [parse_zone_map_go, hp]
            rw [if_neg hv8, if_neg hu]
          rw [hstep,
            ih (used.set v true) (v :: acc) (by rw [List.length_set]; exact hlen)]
          constructor
          · rintro ⟨hall, hnd, hfresh⟩
            refine ⟨?_, ?_, ?_⟩
            · intro o ho
              rw [List.map_cons, List.mem_cons] at ho
              rcases ho with rfl | ho
              · exact ⟨v, hp, hv8'⟩
              · exact hall o ho
            · rw [List.map_cons, List.nodup_cons, hp]
              refine ⟨?_, hnd⟩
              intro hmem
              have h2 := hfresh v hmem
              rw [getD_set_self used v true false (by rw [hlen]; exact hv8')]
                at h2
              exact Bool.noConfusion h2
            · intro w hw
              rw [List.map_cons, List.mem_cons, hp] at hw
              rcases hw with hw | hw
              · injection hw with hwv
                subst hwv
                exact hu'
              · by_cases hwv : w = v
                · subst hwv
                  exact hu'
                · have h2 := hfresh w hw
                  rw [getD_set_of_ne used v w true false
                    (fun he => hwv he.symm)] at h2
                  exact h2
          · rintro ⟨hall, hnd, hfresh⟩
            rw [List.map_cons, List.nodup_cons, hp] at hnd
            refine ⟨?_, hnd.2, ?_⟩
            · intro o ho
              exact hall o (by rw [List.map_cons, List.mem_cons]; exact Or.inr ho)
            · intro w hw
              have hwv : w ≠ v := by
                intro he
                subst he
                exact hnd.1 hw
              rw [getD_set_of_ne used v w true false (fun he => hwv he.symm)]
              exact hfresh w (by
                rw [List.map_cons, List.mem_cons, hp]
                exact Or.inr hw)

/-- C8: parse_zone_map fails with InvalidZoneMap exactly when the
comma-separated input has a piece count different from NUM_ZONES, or a piece
whose trimmed text fails integer parsing, or a parsed value at least
NUM_ZONES, or a repeated value; every failure is an InvalidZoneMap; and
"0,1,2,3,4,5,6,7" parses to the identity permutation. -/
theorem parse_zone_map_spec (s : String) :
    ((∃ msg, parse_zone_map s = .error (.InvalidZoneMap msg)) ↔
      ((splitComma s.data).length ≠ NUM_ZONES ∨
       (∃ p ∈ splitComma s.data, parseUsize (trimChars p) = none) ∨
       (∃ p ∈ splitComma s.data, ∃ v, parseUsize (trimChars p) = some v ∧
          NUM_ZONES ≤ v) ∨
       ¬ ((splitComma s.data).map
          (fun p => parseUsize (trimChars p))).Nodup)) ∧
    (∀ e, parse_zone_map s = .error e → ∃ msg, e = .InvalidZoneMap msg) ∧
    parse_zone_map "0,1,2,3,4,5,6,7" = .ok [0, 1, 2, 3, 4, 5, 6, 7] := by
  refine ⟨?_, ?_, by decide⟩
  · by_cases hlen : (splitComma s.data).length = NUM_ZONES
    · have hpz : parse_zone_map s =
          parse_zone_map_go (splitComma s.data)
            (List.replicate NUM_ZONES false) [] := by
        unfold parse_zone_map
        rw [if_neg (show ¬ (splitComma s.data).length ≠ NUM_ZONES from
          fun h => h hlen)]
      rw [hpz]
      have hok := go_ok_iff (splitComma s.data)
        (List.replicate NUM_ZONES false) [] (by simp)
      have hfresh_triv : ∀ v : Nat,
          (some v) ∈ (splitComma s.data).map
            (fun p => parseUsize (trimChars p)) →
          (List.replicate NUM_ZONES false).getD v false = false :=
        fun v _ => getD_replicate_false _ _
      constructor
      · rintro ⟨msg, hmsg⟩
        have hnok : ¬ ∃ l, parse_zone_map_go (splitComma s.data)
            (List.replicate NUM_ZONES false) [] = .ok l := by
          rintro ⟨l, hl⟩
          rw [hmsg] at hl
          exact Except.noConfusion hl
        rw [hok] at hnok
        by_cases hA : ∀ o ∈ (splitComma s.data).map
            (fun p => parseUsize (trimChars p)), ∃ v, o = some v ∧ v < NUM_ZONES
        · by_cases hB : ((splitComma s.data).map
              (fun p => parseUsize (trimChars p))).Nodup
          · exact absurd ⟨hA, hB, hfresh_triv⟩ hnok
          · exact Or.inr (Or.inr (Or.inr hB))
        · push_neg at hA
          obtain ⟨o, ho, hno⟩ := hA
          obtain ⟨p, hpmem, hpo⟩ := List.mem_map.mp ho
          cases hoc : o with
          | none =>
            refine Or.inr (Or.inl ⟨p, hpmem, ?_⟩)
            rw [hpo, hoc]
          | some w =>
            refine Or.inr (Or.inr (Or.inl ⟨p, hpmem, w, ?_, ?_⟩))
            · rw [hpo, hoc]
            · exact hno w hoc
      · intro hrhs
        have hnok : ¬ ∃ l, parse_zone_map_go (splitComma s.data)
            (List.replicate NUM_ZONES false) [] = .ok l := by
          rw [hok]
          rintro ⟨hA, hB, _⟩
          rcases hrhs with h1 | h2 | h3 | h4
          · exact h1 hlen
          · obtain ⟨p, hpm, hpn⟩ := h2
            obtain ⟨w, hw, _⟩ := hA _ (List.mem_map_of_mem _ hpm)
            rw [hpn] at hw
            exact Option.noConfusion hw
          · obtain ⟨p, hpm, v, hpv, hv8⟩ := h3
            obtain ⟨w, hw, hw8⟩ := hA _ (List.mem_map_of_mem _ hpm)
            rw [hpv] at hw
            injection hw with hvw
            omega
          · exact h4 hB
        cases hres : parse_zone_map_go (splitComma s.data)
            (List.replicate NUM_ZONES false) [] with
        | ok l => exact absurd ⟨l, hres⟩ hnok
        | error e =>
          obtain ⟨msg, rfl⟩ := go_error_shape _ _ _ _ hres
          exact ⟨msg, rfl⟩
    · apply iff_of_true
      · refine ⟨"wrong number of zones", ?_⟩
        unfold parse_zone_map
        rw [if_pos hlen]
      · exact Or.inl hlen
  · intro e he
    unfold parse_zone_map at he
    by_cases hlen : (splitComma s.data).length ≠ NUM_ZONES
    · rw [if_pos hlen] at he
      injection he with h
      exact ⟨_, h.symm⟩
    · rw [if_neg hlen] at he
      exact go_error_shape _ _ _ _ he

/-- Witness for C8: a wrong-count input fails with InvalidZoneMap, and the
identity input parses to the identity permutation. -/
theorem parse_zone_map_spec_witness :
    (∃ msg, parse_zone_map "0,1,2,3" = .error (.InvalidZoneMap msg)) ∧
    parse_zone_map "0,1,2,3,4,5,6,7" = .ok [0, 1, 2, 3, 4, 5, 6, 7] := by
  refine ⟨(parse_zone_map_spec "0,1,2,3").1.mpr (Or.inl (by decide)),
    (parse_zone_map_spec "0,1,2,3,4,5,6,7").2.2⟩
